import Mathlib

/-
Verification of the column-aligning pretty printer (`cols`, src/main.rs)
against its natural-language specification.

Strings from the Rust program are modelled as `List Char`; Rust byte
lengths and byte slicing are modelled through the UTF-8 size of each
character.  Machine integers (`u16`) are modelled as `Nat` with an
explicit `% 65536` at every point where the Rust code performs a
narrowing cast or can wrap.  A Rust panic is modelled as `none` /
`.error .panic`; fallible I/O is modelled with `Except`.
-/

namespace Cols

/-- Whitespace test modelling Rust `char::is_whitespace` on the ASCII
whitespace characters (the full Unicode White_Space set is analogous and
does not occur in any input considered here). -/
def isWsChar (c : Char) : Bool :=
  c = ' ' || c = '\t' || c = '\n' || c = '\r' || c = '\x0b' || c = '\x0c'

/-- Model of Rust `str::trim`: drop leading and trailing whitespace. -/
def trimStr (s : List Char) : List Char :=
  ((s.dropWhile isWsChar).reverse.dropWhile isWsChar).reverse

/-- Number of bytes of the UTF-8 encoding of one character. -/
def charUtf8Size (c : Char) : Nat :=
  if c.toNat < 0x80 then 1
  else if c.toNat < 0x800 then 2
  else if c.toNat < 0x10000 then 3
  else 4

/-- Byte length of the UTF-8 encoding of a string (Rust `str::len`). -/
def utf8Len (s : List Char) : Nat :=
  (s.map charUtf8Size).sum

/-- Model of the Rust byte slice `value[0..n]`: the characters whose
encodings occupy exactly the first `n` bytes, or `none` when byte index
`n` is not a character boundary or is past the end (Rust panics there). -/
def takeBytes : List Char → Nat → Option (List Char)
  | _, 0 => some []
  | [], _ + 1 => none
  | c :: cs, n + 1 =>
    if charUtf8Size c ≤ n + 1 then
      (takeBytes cs (n + 1 - charUtf8Size c)).map (fun t => c :: t)
    else none

/-- Decimal digit test, as in the grammar of Rust `f64::from_str`. -/
def isDigitChar (c : Char) : Bool := '0' ≤ c && c ≤ '9'

/-- ASCII lower-casing, for the case-insensitive `inf`/`nan` forms. -/
def lowerChar (c : Char) : Char :=
  if 'A' ≤ c && c ≤ 'Z' then Char.ofNat (c.toNat + 32) else c

/-- Drop one optional leading sign character. -/
def dropSign : List Char → List Char
  | '+' :: cs => cs
  | '-' :: cs => cs
  | cs => cs

/-- Exponent part of the `f64::from_str` grammar: either absent, or
`(e|E) Sign? Digit+` consuming the whole remainder. -/
def expPartOk : List Char → Bool
  | [] => true
  | e :: rest =>
    (e = 'e' || e = 'E') &&
      (let ds := dropSign rest
       !ds.isEmpty && ds.all isDigitChar)

/-- Mantissa-and-exponent part of the `f64::from_str` grammar:
`(Digit+ | Digit+ . Digit* | Digit* . Digit+) Exp?`. -/
def mantissaOk (s : List Char) : Bool :=
  let ds := s.takeWhile isDigitChar
  let rest := s.dropWhile isDigitChar
  match rest with
  | '.' :: rest2 =>
    let fs := rest2.takeWhile isDigitChar
    let rest3 := rest2.dropWhile isDigitChar
    (!ds.isEmpty || !fs.isEmpty) && expPartOk rest3
  | _ => !ds.isEmpty && expPartOk rest

/-- Model of `value.parse::<f64>().is_ok()`: the grammar accepted by
Rust `f64::from_str` — an optional sign followed by `inf`, `infinity`
or `nan` (case-insensitive) or by a decimal mantissa with optional
exponent. -/
def parse_f64_ok (s : List Char) : Bool :=
  let body := dropSign s
  let low := body.map lowerChar
  low = ['i', 'n', 'f'] ||
  low = ['i', 'n', 'f', 'i', 'n', 'i', 't', 'y'] ||
  low = ['n', 'a', 'n'] ||
  mantissaOk body

/-- The two inferred column types of src/main.rs. -/
inductive ColumnType
  | Textual
  | Numeric
deriving DecidableEq, Repr

/-- `struct Column` of src/main.rs: header name, inferred type, maximum
observed byte length (a `u16`, hence the `% 65536` at the cast sites). -/
structure Column where
  name : List Char
  kind : ColumnType
  max_length : Nat
deriving DecidableEq, Repr

/-- `Column::new`: trimmed name, `Numeric` start, `max_length` from the
byte length of the (untrimmed) argument, cast to `u16`. -/
def Column.new (name : List Char) : Column :=
  ⟨trimStr name, ColumnType.Numeric, utf8Len name % 65536⟩

/-- `Column::update`: widen `max_length`, and apply the one-way type
transition — `Textual` stays, `Numeric` stays only if the value parses
as an `f64`. -/
def Column.update (c : Column) (value : List Char) : Column :=
  ⟨c.name,
   match c.kind with
   | ColumnType.Textual => ColumnType.Textual
   | ColumnType.Numeric =>
     if parse_f64_ok value then ColumnType.Numeric else ColumnType.Textual,
   max c.max_length (utf8Len value % 65536)⟩

/-- The three rendering knobs of `DelimitedFile` (header_repeat,
max_value_length, borders), with the `u16` option fields as `Option Nat`. -/
structure Config where
  header_repeat : Option Nat
  max_value_length : Option Nat
  borders : Bool
deriving DecidableEq, Repr

/-- `DelimitedFile::print_length`: the per-column print width. -/
def print_length (cfg : Config) (col : Column) : Nat :=
  match cfg.max_value_length with
  | some length => min col.max_length length
  | none => col.max_length

/-- Left-aligned padding to `n` characters, as Rust `format!` width on a
string (Rust pads counting characters). -/
def padRight (s : List Char) (n : Nat) : List Char :=
  s ++ List.replicate (n - s.length) ' '

/-- Right-aligned padding to `n` characters. -/
def padLeft (s : List Char) (n : Nat) : List Char :=
  List.replicate (n - s.length) ' ' ++ s

/-- `DelimitedFile::format_value`: byte-truncate to the print length when
the value's byte length exceeds it (`&value[0..print_length]`, which
panics — here `none` — off a character boundary), pad by column type,
append the separator. -/
def format_value (cfg : Config) (value : List Char) (col : Column) : Option (List Char) :=
  match (if print_length cfg col < utf8Len value then
          takeBytes value (print_length cfg col)
         else some value) with
  | none => none
  | some truncated =>
    match col.kind with
    | ColumnType.Textual =>
      some (padRight truncated (print_length cfg col) ++
            (if cfg.borders then ['│'] else [' ']))
    | ColumnType.Numeric =>
      some (padLeft truncated (print_length cfg col) ++
            (if cfg.borders then ['│'] else [' ']))

/-- Split on the tab delimiter; the empty string yields one empty token,
as `"".split('\t')` does in Rust. -/
def splitTab : List Char → List (List Char)
  | [] => [[]]
  | c :: rest =>
    let ts := splitTab rest
    if c = '\t' then [] :: ts
    else
      match ts with
      | t :: ts2 => (c :: t) :: ts2
      | [] => [[c]]

/-- `DelimitedFile::line_parse`: split on tabs and trim every token. -/
def line_parse (l : List Char) : List (List Char) :=
  (splitTab l).map trimStr

/-- One result of `reader.read_line`: a line (with its trailing newline
when present; the empty line is end-of-file) or an I/O error. -/
inductive ReadResult
  | line (s : List Char)
  | ioError
deriving DecidableEq, Repr

/-- Abnormal outcomes of a rendering step: a Rust panic, a `BrokenPipe`
write error, or any other I/O error. -/
inductive RErr
  | panic
  | brokenPipe
  | otherIO
deriving DecidableEq, Repr

/-- One observable output item of `print_aligned_rows`: a re-emitted
header block or one rendered data row (each carrying its text). -/
inductive OutEvent
  | headerBlock (text : List Char)
  | row (text : List Char)
deriving DecidableEq, Repr

/-- Whether an output event is a re-emitted header block. -/
def evIsHeader : OutEvent → Bool
  | OutEvent.headerBlock _ => true
  | OutEvent.row _ => false

/-- One `write!` to the output sink, modelled as a pipe that accepts
`cap` more characters (`none` = unbounded) and fails with `BrokenPipe`
on the first write that does not fit. -/
def wwrite (s : List Char) : Option Nat → Except RErr (Option Nat)
  | none => Except.ok none
  | some cap =>
    if s.length ≤ cap then Except.ok (some (cap - s.length))
    else Except.error RErr.brokenPipe

/-- `DelimitedFile::read_headers` over the stream of read results: one
`read_line`, then one `Column` per parsed token; returns the columns,
the byte count of the header line (`header_bytes`), and the remaining
stream.  A failing read propagates (the source uses `?` here). -/
def read_headers_r : List ReadResult → Except RErr (List Column × Nat × List ReadResult)
  | [] => Except.ok ((line_parse []).map Column.new, 0, [])
  | ReadResult.ioError :: _ => Except.error RErr.otherIO
  | ReadResult.line s :: rest =>
    Except.ok ((line_parse s).map Column.new, utf8Len s, rest)

/-- The per-line mutation of `analyze_rows`: `cols.get_mut(i)` updates
the column at each field position and ignores fields with no column. -/
def updateCols : List Column → List (List Char) → List Column
  | cols, [] => cols
  | [], _ :: _ => []
  | c :: cs, v :: vs => c.update v :: updateCols cs vs

/-- `DelimitedFile::analyze_rows`: folds `updateCols` over the data
lines.  The `while let Ok(bytes) = read_line` loop exits on a read
error, so the function returns `Ok` even then; a zero-byte read (end of
file) also ends the loop. -/
def analyze_rows (cols : List Column) : List ReadResult → Except RErr (List Column)
  | [] => Except.ok cols
  | ReadResult.ioError :: _ => Except.ok cols
  | ReadResult.line s :: rest =>
    if s = [] then Except.ok cols
    else analyze_rows (updateCols cols (line_parse s)) rest

/-- The border rule writes of `print_aligned_header`: per column, one
`write!` of `print_length` horizontal bars followed by the junction
glyph.  Returns the text written and the remaining pipe capacity. -/
def write_rule (cfg : Config) : List Column → Option Nat → Except RErr (List Char × Option Nat)
  | [], cap => Except.ok ([], cap)
  | c :: cs, cap =>
    let piece := List.replicate (print_length cfg c) '─' ++ ['┼']
    match wwrite piece cap with
    | Except.error e => Except.error e
    | Except.ok cap1 =>
      match write_rule cfg cs cap1 with
      | Except.error e => Except.error e
      | Except.ok (rest, cap2) => Except.ok (piece ++ rest, cap2)

/-- The column-name writes of `print_aligned_header`: per column, one
`write!` of `format_value(col.name, col)` re-padded (as plain text) to
the print length.  A `format_value` panic aborts. -/
def write_names (cfg : Config) : List Column → Option Nat → Except RErr (List Char × Option Nat)
  | [], cap => Except.ok ([], cap)
  | c :: cs, cap =>
    match format_value cfg c.name c with
    | none => Except.error RErr.panic
    | some cell =>
      let piece := padRight cell (print_length cfg c)
      match wwrite piece cap with
      | Except.error e => Except.error e
      | Except.ok cap1 =>
        match write_names cfg cs cap1 with
        | Except.error e => Except.error e
        | Except.ok (rest, cap2) => Except.ok (piece ++ rest, cap2)

/-- `DelimitedFile::print_aligned_header`: when borders are on, a rule
line and a newline; always the column names; when borders are on, a
newline, a rule line and a newline.  No newline follows the names when
borders are off, exactly as in the source. -/
def print_aligned_header_w (cfg : Config) (cols : List Column) (cap : Option Nat) :
    Except RErr (List Char × Option Nat) :=
  match (if cfg.borders then
          match write_rule cfg cols cap with
          | Except.error e => Except.error e
          | Except.ok (r, c1) =>
            match wwrite ['\n'] c1 with
            | Except.error e => Except.error e
            | Except.ok c2 => Except.ok (r ++ ['\n'], c2)
         else Except.ok ([], cap)) with
  | Except.error e => Except.error e
  | Except.ok (top, cap1) =>
    match write_names cfg cols cap1 with
    | Except.error e => Except.error e
    | Except.ok (ns, cap2) =>
      if cfg.borders then
        match wwrite ['\n'] cap2 with
        | Except.error e => Except.error e
        | Except.ok cap3 =>
          match write_rule cfg cols cap3 with
          | Except.error e => Except.error e
          | Except.ok (r2, cap4) =>
            match wwrite ['\n'] cap4 with
            | Except.error e => Except.error e
            | Except.ok cap5 =>
              Except.ok (top ++ ns ++ '\n' :: r2 ++ ['\n'], cap5)
      else Except.ok (top ++ ns, cap2)

/-- The header-repeat step at the top of the row loop: with
`header_repeat = Some(hr)`, `line_num % hr` (a panic when `hr = 0`,
as `%` by zero panics on `u16`), and a full header block when the
updated counter is a multiple of `hr`. -/
def row_header_step (cfg : Config) (cols : List Column) (n2 : Nat) (cap : Option Nat) :
    Except RErr (List OutEvent × Option Nat) :=
  match cfg.header_repeat with
  | none => Except.ok ([], cap)
  | some hr =>
    if hr = 0 then Except.error RErr.panic
    else if n2 % hr = 0 then
      match print_aligned_header_w cfg cols cap with
      | Except.error e => Except.error e
      | Except.ok (h, c1) => Except.ok ([OutEvent.headerBlock h], c1)
    else Except.ok ([], cap)

/-- The per-row cell writes of `print_aligned_rows`: for each field in
order, `cols.get(i).expect(..)` — a panic when the row has more fields
than there are columns — then `format_value` and one `write!`. -/
def write_cells (cfg : Config) : List Column → List (List Char) → Option Nat →
    Except RErr (List Char × Option Nat)
  | _, [], cap => Except.ok ([], cap)
  | [], _ :: _, _ => Except.error RErr.panic
  | c :: cs, v :: vs, cap =>
    match format_value cfg v c with
    | none => Except.error RErr.panic
    | some cell =>
      match wwrite cell cap with
      | Except.error e => Except.error e
      | Except.ok cap1 =>
        match write_cells cfg cs vs cap1 with
        | Except.error e => Except.error e
        | Except.ok (rest, cap2) => Except.ok (cell ++ rest, cap2)

/-- `DelimitedFile::print_aligned_rows`: reads lines until a zero-byte
read or a read error (the `while let Ok` loop swallows the error and the
function returns `Ok`); per line it bumps the `u16` row counter, runs
the header-repeat step, writes the cells and a newline.  Returns the
emitted output events, the remaining capacity and the unread stream. -/
def print_aligned_rows_w (cfg : Config) (cols : List Column) :
    Nat → List ReadResult → Option Nat →
    Except RErr (List OutEvent × Option Nat × List ReadResult)
  | _, [], cap => Except.ok ([], cap, [])
  | _, ReadResult.ioError :: rest, cap => Except.ok ([], cap, rest)
  | n, ReadResult.line s :: rest, cap =>
    if s = [] then Except.ok ([], cap, rest)
    else
      match row_header_step cfg cols ((n + 1) % 65536) cap with
      | Except.error e => Except.error e
      | Except.ok (hevs, cap1) =>
        match write_cells cfg cols (line_parse s) cap1 with
        | Except.error e => Except.error e
        | Except.ok (txt, cap2) =>
          match wwrite ['\n'] cap2 with
          | Except.error e => Except.error e
          | Except.ok cap3 =>
            match print_aligned_rows_w cfg cols ((n + 1) % 65536) rest cap3 with
            | Except.error e => Except.error e
            | Except.ok (evs, cap4, rem) =>
              Except.ok (hevs ++ OutEvent.row (txt ++ ['\n']) :: evs, cap4, rem)

/-- `main` after argument parsing: read the header, analyze, seek back
to the data start, print the header, print the rows (errors from all of
these propagate with `?`, so `main` returns `Err` and the process exits
with status 1), then a second `print_aligned_rows` call whose error —
and only whose error — is special-cased: `BrokenPipe` exits 0, other
errors exit 1.  Result: `some code` = exit status, `none` = panic. -/
def main_model (cfg : Config) (input : List ReadResult) (cap : Option Nat) : Option Nat :=
  match read_headers_r input with
  | Except.error _ => some 1
  | Except.ok (cols0, _bytes, rest) =>
    match analyze_rows cols0 rest with
    | Except.error _ => some 1
    | Except.ok cols =>
      match print_aligned_header_w cfg cols cap with
      | Except.error RErr.panic => none
      | Except.error _ => some 1
      | Except.ok (_h, cap1) =>
        match print_aligned_rows_w cfg cols 0 rest cap1 with
        | Except.error RErr.panic => none
        | Except.error _ => some 1
        | Except.ok (_evs, cap2, rest2) =>
          match print_aligned_rows_w cfg cols 0 rest2 cap2 with
          | Except.error RErr.panic => none
          | Except.error RErr.brokenPipe => some 0
          | Except.error RErr.otherIO => some 1
          | Except.ok _ => some 0

/-- Cell formatting as the specification words it (claim C7): truncation
counts characters and is total, padding and separator as in the spec. -/
def spec_format_value (cfg : Config) (value : List Char) (col : Column) : List Char :=
  let pl := print_length cfg col
  let truncated := if pl < value.length then value.take pl else value
  let sep := if cfg.borders then ['│'] else [' ']
  match col.kind with
  | ColumnType.Textual => padRight truncated pl ++ sep
  | ColumnType.Numeric => padLeft truncated pl ++ sep

/-- Header/row tag sequence demanded by claim C3 as stated: for rows
`1..m`, a header block immediately after every row whose 1-based index
is a multiple of `N` (`true` tags a header block, `false` a row). -/
def specTagsAfter (N : Nat) (m : Nat) : List Bool :=
  ((List.range m).map (fun k => false :: (if (k + 1) % N = 0 then [true] else []))).flatten

/-- Header/row tag sequence of the code: for rows `k0+1 .. k0+m`, a
header block immediately before every row whose 1-based index is a
multiple of `N`. -/
def specTagsBefore (N : Nat) : Nat → Nat → List Bool
  | _, 0 => []
  | k0, m + 1 =>
    (if (k0 + 1) % N = 0 then [true] else []) ++ false :: specTagsBefore N (k0 + 1) m

/-- Header rendering as claim C9 words it: one newline-terminated line
of names, each a plain-text (type-unaware, left-aligned) cell, with a
rule line above and below when borders are on. -/
def spec_aligned_header (cfg : Config) (cols : List Column) : List Char :=
  let sep := if cfg.borders then ['│'] else [' ']
  let cell := fun (c : Column) =>
    let pl := print_length cfg c
    padRight (if pl < c.name.length then c.name.take pl else c.name) pl ++ sep
  let names := (cols.map cell).flatten ++ ['\n']
  let rule := (cols.map (fun c => List.replicate (print_length cfg c) '─' ++ ['┼'])).flatten
  if cfg.borders then rule ++ '\n' :: names ++ rule ++ ['\n'] else names

/-- Text of the rule line written by `print_aligned_header` (without its
trailing newline). -/
def ruleText (cfg : Config) : List Column → List Char
  | [] => []
  | c :: cs => List.replicate (print_length cfg c) '─' ++ '┼' :: ruleText cfg cs

/-- Text of the column-names cells written by `print_aligned_header`,
or `none` when `format_value` panics on some name. -/
def namesText (cfg : Config) : List Column → Option (List Char)
  | [] => some []
  | c :: cs =>
    match format_value cfg c.name c with
    | none => none
    | some cell =>
      match namesText cfg cs with
      | none => none
      | some rest => some (padRight cell (print_length cfg c) ++ rest)

/-- An unbordered configuration with no cap and no header repetition. -/
def cfgPlain : Config := ⟨none, none, false⟩

/-- The column built from the header line `a\n`, as analysis leaves it
after seeing only numeric one-byte values. -/
def colsA : List Column := [⟨['a'], ColumnType.Numeric, 1⟩]

/-- Claim C1: a write failure with kind `BrokenPipe` first observed
during rendering is claimed to end the process with exit status 0.  In
the code the `BrokenPipe → exit(0)` handler guards only a second,
redundant `print_aligned_rows` call; the actual rendering calls
propagate the error via `?`, so `main` returns `Err` and the process
exits 1.  Concretely: file `a\n5\n`, sink that accepts 3 characters
then breaks — the row pass hits `BrokenPipe` and the exit status is 1,
not 0. -/
theorem c1_broken_pipe_exits_nonzero :
    print_aligned_rows_w cfgPlain colsA 0 [ReadResult.line ['5', '\n']] (some 1) =
      Except.error RErr.brokenPipe
  ∧ main_model cfgPlain [ReadResult.line ['a', '\n'], ReadResult.line ['5', '\n']] (some 3) =
      some 1 := by
  constructor
  · rfl
  · rfl

/-- Claim C2: a data row with more fields than the header is claimed to
have its extra fields ignored in both passes, with no fault.  Analysis
indeed ignores the extra field (first conjunct), but rendering calls
`cols.get(i).expect("No column for i=")` and panics on it: on header
`a` and data row `1<TAB>2`, the cell-writing step of
`print_aligned_rows` panics (second conjunct). -/
theorem c2_extra_field_panics :
    analyze_rows [Column.new ['a']] [ReadResult.line ['1', '\t', '2', '\n']] =
      Except.ok [⟨['a'], ColumnType.Numeric, 1⟩]
  ∧ write_cells cfgPlain colsA (line_parse ['1', '\t', '2', '\n']) none =
      Except.error RErr.panic := by
  constructor
  · rfl
  · rfl

/-- Claim C4: a mid-stream read failure is claimed to propagate to the
top level and make the process exit non-zero.  The `while let Ok`
loops of `analyze_rows` and `print_aligned_rows` treat a read error as
end-of-stream: analysis returns `Ok` (first conjunct) and the whole
run of `main` on a stream whose data reads fail exits 0 (second
conjunct). -/
theorem c4_read_error_swallowed :
    analyze_rows colsA [ReadResult.ioError] = Except.ok colsA
  ∧ main_model cfgPlain [ReadResult.line ['a', '\n'], ReadResult.ioError] none = some 0 := by
  constructor
  · rfl
  · rfl

/-- Claim C5 as stated is false: reading the header of a zero-length
input does record `bytes_consumed = 0`, but `line_parse` of the empty
line yields one empty token (Rust `"".split('\t')`), so the Column
Model has one column, not zero. -/
theorem c5_counterexample :
    read_headers_r [] =
      Except.ok ([⟨[], ColumnType.Numeric, 0⟩], 0, [])
  ∧ ([⟨[], ColumnType.Numeric, 0⟩] : List Column) ≠ [] := by
  constructor
  · rfl
  · decide

/-- Claim C5 amended: reading the header of a zero-length input yields
a Column Model with exactly one column — empty name, `Numeric`,
`max_length = 0` — and `bytes_consumed = 0`. -/
theorem c5_amended_empty_header :
    read_headers_r [] = Except.ok ([⟨[], ColumnType.Numeric, 0⟩], 0, []) := by
  rfl

/-- Claim C10: truncation counts bytes, not characters, and panics off
a character boundary.  With a cap of 2 and `max_length = 10` the print
length is 2; the two-character value `aé` (3 bytes) is within the
claimed character budget yet is byte-sliced at index 2 — inside `é` —
and panics (second conjunct); the two-character value `éa` is sliced on
a boundary and loses a character to byte truncation (third conjunct). -/
theorem c10_byte_truncation :
    (['a', 'é'].length ≤ print_length ⟨none, some 2, false⟩ ⟨['v'], ColumnType.Textual, 10⟩
      ∧ print_length ⟨none, some 2, false⟩ ⟨['v'], ColumnType.Textual, 10⟩ < utf8Len ['a', 'é'])
  ∧ format_value ⟨none, some 2, false⟩ ['a', 'é'] ⟨['v'], ColumnType.Textual, 10⟩ = none
  ∧ format_value ⟨none, some 2, false⟩ ['é', 'a'] ⟨['v'], ColumnType.Textual, 10⟩ =
      some ['é', ' ', ' '] := by
  refine ⟨⟨by decide, by decide⟩, rfl, rfl⟩

/-- Claim C3 as stated is false: with `header_repeat = 2` and two data
rows, the code re-emits the header block immediately *before* the row
whose 1-based index is a multiple of 2 (tags `[false, true, false]`),
not after it (`specTagsAfter 2 2 = [false, false, true]`). -/
theorem c3_counterexample :
    print_aligned_rows_w ⟨some 2, none, false⟩ colsA 0
        [ReadResult.line ['1', '\n'], ReadResult.line ['2', '\n']] none =
      Except.ok ([OutEvent.row ['1', ' ', '\n'], OutEvent.headerBlock ['a', ' '],
                  OutEvent.row ['2', ' ', '\n']], none, [])
  ∧ [OutEvent.row ['1', ' ', '\n'], OutEvent.headerBlock ['a', ' '],
      OutEvent.row ['2', ' ', '\n']].map evIsHeader ≠ specTagsAfter 2 2 := by
  refine ⟨rfl, by decide⟩

/-- Textual is absorbing for `Column.update`. -/
theorem update_kind_textual : ∀ (c : Column) (v : List Char),
    c.kind = ColumnType.Textual → (c.update v).kind = ColumnType.Textual := by
  intro ⟨nm, k, ml⟩ v h
  cases k
  · rfl
  · exact ColumnType.noConfusion h

/-- Claim C6: the type-inference lattice is one way.  Every new column
starts `Numeric`; `Textual` absorbs every update; a `Numeric` column
stays `Numeric` exactly when the value parses as an `f64`; the empty
value always flips `Numeric` to `Textual`; and no sequence of updates
takes a `Textual` column back to `Numeric`. -/
theorem c6_type_lattice :
    (∀ s, (Column.new s).kind = ColumnType.Numeric)
  ∧ (∀ (c : Column) (v : List Char), c.kind = ColumnType.Textual →
       (c.update v).kind = ColumnType.Textual)
  ∧ (∀ (c : Column) (v : List Char), c.kind = ColumnType.Numeric →
       ((c.update v).kind = ColumnType.Numeric ↔ parse_f64_ok v = true))
  ∧ (∀ (c : Column), c.kind = ColumnType.Numeric →
       (c.update []).kind = ColumnType.Textual)
  ∧ (∀ (c : Column) (vs : List (List Char)), c.kind = ColumnType.Textual →
       (vs.foldl Column.update c).kind = ColumnType.Textual) := by
  refine ⟨fun s => rfl, update_kind_textual, ?_, ?_, ?_⟩
  · intro ⟨nm, k, ml⟩ v h
    cases k
    · exact ColumnType.noConfusion h
    · cases hp : parse_f64_ok v <;> simp [Column.update, hp]
  · intro ⟨nm, k, ml⟩ h
    cases k
    · exact ColumnType.noConfusion h
    · rfl
  · intro c vs
    induction vs generalizing c with
    | nil => exact fun h => h
    | cons v vs ih => exact fun h => ih (c.update v) (update_kind_textual c v h)

/-- Witness for claim C6 at concrete inputs: a Textual column stays
Textual under an update; a fresh column fed `9.5` satisfies the
parse-iff rule; a fresh column fed the empty value flips to Textual;
and a fold over further values keeps a Textual column Textual. -/
theorem c6_type_lattice_witness :
    ((⟨[], ColumnType.Textual, 0⟩ : Column).update ['1']).kind = ColumnType.Textual
  ∧ (((Column.new ['x']).update ['9', '.', '5']).kind = ColumnType.Numeric ↔
       parse_f64_ok ['9', '.', '5'] = true)
  ∧ ((Column.new ['x']).update []).kind = ColumnType.Textual
  ∧ (([['a']] : List (List Char)).foldl Column.update
       ⟨[], ColumnType.Textual, 0⟩).kind = ColumnType.Textual := by
  refine ⟨c6_type_lattice.2.1 _ _ (by decide), c6_type_lattice.2.2.1 _ _ (by decide),
          c6_type_lattice.2.2.2.1 _ (by decide), c6_type_lattice.2.2.2.2 _ _ (by decide)⟩

/-- Claim C8: the print length is `min(max_length, cap)` when a cap is
configured and `max_length` otherwise — a pure function of the column
and the configuration. -/
theorem c8_print_length (cfg : Config) (col : Column) :
    (∀ cap, cfg.max_value_length = some cap →
       print_length cfg col = min col.max_length cap)
  ∧ (cfg.max_value_length = none → print_length cfg col = col.max_length) := by
  constructor
  · intro cap h
    simp [print_length, h]
  · intro h
    simp [print_length, h]

/-- Witness for claim C8: with `max_length = 10`, a cap of 4 gives
print length `min 10 4`, and no cap gives 10. -/
theorem c8_print_length_witness :
    print_length ⟨none, some 4, false⟩ ⟨['a'], ColumnType.Numeric, 10⟩ = min 10 4
  ∧ print_length cfgPlain ⟨['a'], ColumnType.Numeric, 10⟩ = 10 :=
  ⟨(c8_print_length _ _).1 4 rfl, (c8_print_length _ _).2 rfl⟩

/-- Every character encodes to at least one byte. -/
theorem charUtf8Size_pos (c : Char) : 0 < charUtf8Size c := by
  unfold charUtf8Size
  split_ifs <;> norm_num

/-- Slicing zero bytes always succeeds with the empty string. -/
theorem takeBytes_zero (v : List Char) : takeBytes v 0 = some [] := by
  cases v <;> rfl

/-- Slicing a string at the exact byte length of a leading piece
returns that piece. -/
theorem takeBytes_exact (pre suf : List Char) :
    takeBytes (pre ++ suf) (utf8Len pre) = some pre := by
  induction pre with
  | nil => exact takeBytes_zero suf
  | cons c cs ih =>
    have hsz : 0 < charUtf8Size c := charUtf8Size_pos c
    have hlen : utf8Len (c :: cs) = charUtf8Size c + utf8Len cs := by
      simp [utf8Len]
    obtain ⟨m, hm⟩ : ∃ m, utf8Len (c :: cs) = m + 1 := ⟨utf8Len (c :: cs) - 1, by omega⟩
    rw [hm]
    show takeBytes (c :: (cs ++ suf)) (m + 1) = some (c :: cs)
    rw [takeBytes]
    rw [if_pos (by omega : charUtf8Size c ≤ m + 1)]
    have hrest : m + 1 - charUtf8Size c = utf8Len cs := by omega
    rw [hrest, ih]
    rfl

/-- A successful byte slice is a leading piece of the string whose byte
length is exactly the slice index. -/
theorem takeBytes_some (v : List Char) : ∀ (n : Nat) (t : List Char),
    takeBytes v n = some t → ∃ suf, v = t ++ suf ∧ utf8Len t = n := by
  induction v with
  | nil =>
    intro n t h
    cases n with
    | zero =>
      rw [takeBytes_zero] at h
      obtain rfl : ([] : List Char) = t := Option.some.inj h
      exact ⟨[], rfl, rfl⟩
    | succ n => simp [takeBytes] at h
  | cons c cs ih =>
    intro n t h
    cases n with
    | zero =>
      rw [takeBytes_zero] at h
      obtain rfl : ([] : List Char) = t := Option.some.inj h
      exact ⟨c :: cs, rfl, rfl⟩
    | succ n =>
      rw [takeBytes] at h
      by_cases hle : charUtf8Size c ≤ n + 1
      · rw [if_pos hle] at h
        cases ht : takeBytes cs (n + 1 - charUtf8Size c) with
        | none => rw [ht] at h; simp at h
        | some t2 =>
          rw [ht] at h
          simp at h
          obtain ⟨suf, hsuf, hlen⟩ := ih _ _ ht
          refine ⟨suf, ?_, ?_⟩
          · rw [← h]
            simp [hsuf]
          · rw [← h]
            simp [utf8Len] at hlen ⊢
            omega
      · rw [if_neg hle] at h
        simp at h

/-- A byte slice off every character boundary fails (Rust panics). -/
theorem takeBytes_none (v : List Char) (n : Nat)
    (hb : ∀ pre suf, v = pre ++ suf → utf8Len pre ≠ n) : takeBytes v n = none := by
  cases h : takeBytes v n with
  | none => rfl
  | some t =>
    obtain ⟨suf, hsuf, hlen⟩ := takeBytes_some v n t h
    exact absurd hlen (hb t suf hsuf)

/-- Claim C7 amended: the cell is built from the value cut to its first
`print_length` *bytes* when its byte length exceeds `print_length`
(right-truncation, no ellipsis; the cut is defined only when the byte
index falls on a character boundary, otherwise `format_value` panics),
padded to `print_length` characters — right for `Textual`, left for
`Numeric` — with one separator appended: the box-drawing bar when
borders are on and a space otherwise. -/
theorem c7_amended (cfg : Config) (v : List Char) (col : Column) :
    (utf8Len v ≤ print_length cfg col →
      format_value cfg v col =
        some ((match col.kind with
               | ColumnType.Textual =>
                 v ++ List.replicate (print_length cfg col - v.length) ' '
               | ColumnType.Numeric =>
                 List.replicate (print_length cfg col - v.length) ' ' ++ v) ++
              (if cfg.borders then ['│'] else [' '])))
  ∧ (∀ pre suf, v = pre ++ suf → utf8Len pre = print_length cfg col →
      print_length cfg col < utf8Len v →
      format_value cfg v col =
        some ((match col.kind with
               | ColumnType.Textual =>
                 pre ++ List.replicate (print_length cfg col - pre.length) ' '
               | ColumnType.Numeric =>
                 List.replicate (print_length cfg col - pre.length) ' ' ++ pre) ++
              (if cfg.borders then ['│'] else [' '])))
  ∧ ((∀ pre suf, v = pre ++ suf → utf8Len pre ≠ print_length cfg col) →
      print_length cfg col < utf8Len v →
      format_value cfg v col = none) := by
  refine ⟨?_, ?_, ?_⟩
  · intro h
    unfold format_value
    rw [if_neg (by omega : ¬ print_length cfg col < utf8Len v)]
    cases hk : col.kind <;> simp [hk, padRight, padLeft]
  · intro pre suf hv hpre hlt
    unfold format_value
    rw [if_pos hlt]
    subst hv
    rw [← hpre, takeBytes_exact]
    cases hk : col.kind <;> simp [hk, padRight, padLeft]
  · intro hb hlt
    unfold format_value
    rw [if_pos hlt, takeBytes_none v _ hb]

/-- Witness for claim C7 amended: an unpadded short value in a width-3
Textual column, and a byte-boundary truncation of `xyz` to 2 bytes. -/
theorem c7_amended_witness :
    format_value cfgPlain ['z'] ⟨['v'], ColumnType.Textual, 3⟩ =
      some ((['z'] ++ List.replicate 2 ' ') ++ [' '])
  ∧ format_value ⟨none, some 2, false⟩ ['x', 'y', 'z'] ⟨['v'], ColumnType.Textual, 10⟩ =
      some ((['x', 'y'] ++ List.replicate 0 ' ') ++ [' ']) := by
  constructor
  · have h := (c7_amended cfgPlain ['z'] ⟨['v'], ColumnType.Textual, 3⟩).1 (by decide)
    simpa using h
  · have h := (c7_amended ⟨none, some 2, false⟩ ['x', 'y', 'z']
      ⟨['v'], ColumnType.Textual, 10⟩).2.1 ['x', 'y'] ['z'] rfl (by decide) (by decide)
    simpa using h

/-- Claim C7 as stated is false: it asks for character-based, total
truncation, but on the two-character (three-byte) value `aé` with a cap
of 2 the code panics on a mid-character byte slice, while the claimed
cell would be `aé` followed by the separator. -/
theorem c7_counterexample :
    format_value ⟨none, some 2, false⟩ ['a', 'é'] ⟨['v'], ColumnType.Textual, 10⟩ ≠
      some (spec_format_value ⟨none, some 2, false⟩ ['a', 'é']
        ⟨['v'], ColumnType.Textual, 10⟩) := by
  decide

/-- With an unbounded sink, the border-rule writes produce exactly the
rule text. -/
theorem write_rule_none (cfg : Config) (cols : List Column) :
    write_rule cfg cols none = Except.ok (ruleText cfg cols, none) := by
  induction cols with
  | nil => rfl
  | cons c cs ih => simp [write_rule, wwrite, ih, ruleText]

/-- With an unbounded sink, the name-cell writes produce exactly the
names text, or panic exactly when `namesText` does. -/
theorem write_names_none (cfg : Config) (cols : List Column) :
    write_names cfg cols none =
      (match namesText cfg cols with
       | none => Except.error RErr.panic
       | some ns => Except.ok (ns, none)) := by
  induction cols with
  | nil => rfl
  | cons c cs ih =>
    rw [write_names, namesText]
    cases hf : format_value cfg c.name c with
    | none => rfl
    | some cell =>
      cases hns : namesText cfg cs with
      | none => simp [wwrite, ih, hns]
      | some rest => simp [wwrite, ih, hns]

/-- Claim C9 amended: `print_aligned_header` writes the column names
formatted type-aware — each name goes through `format_value` with its
column, so `Numeric` columns right-align their names — and appends *no*
newline after the names line when borders are off; with borders on, the
names line is preceded by a rule line plus newline and followed by a
newline, a rule line and a newline, the rules built per column from
`print_length` horizontal bars joined by the junction glyph. -/
theorem c9_amended (cfg : Config) (cols : List Column) :
    print_aligned_header_w cfg cols none =
      (match namesText cfg cols with
       | none => Except.error RErr.panic
       | some ns =>
         Except.ok
           ((if cfg.borders then
               ruleText cfg cols ++ '\n' :: ns ++ '\n' :: ruleText cfg cols ++ ['\n']
             else ns), none)) := by
  unfold print_aligned_header_w
  cases hb : cfg.borders
  · simp only [hb, Bool.false_eq_true, if_false]
    rw [write_names_none]
    cases hns : namesText cfg cols with
    | none => rfl
    | some ns => rfl
  · simp only [hb, if_true]
    rw [write_rule_none]
    simp only [wwrite]
    rw [write_names_none]
    cases hns : namesText cfg cols with
    | none => rfl
    | some ns => simp [wwrite, write_rule_none]

/-- Claim C9 as stated is false: on one `Numeric` column named `ab`
with `max_length = 4` and borders off, the code emits `  ab ` — the
name is right-aligned by the type-aware `format_value`, and *no*
newline terminates the names line — while the claim's plain-text,
newline-terminated line would be `ab    ` followed by a newline. -/
theorem c9_counterexample :
    print_aligned_header_w cfgPlain [⟨['a', 'b'], ColumnType.Numeric, 4⟩] none =
      Except.ok ([' ', ' ', 'a', 'b', ' '], none)
  ∧ [' ', ' ', 'a', 'b', ' '] ≠
      spec_aligned_header cfgPlain [⟨['a', 'b'], ColumnType.Numeric, 4⟩] := by
  refine ⟨rfl, by decide⟩

/-- Claim C3 amended: when header repetition is enabled with
`header_repeat = N` (`N` positive) and fewer than 65536 data rows (the
`u16` row counter does not wrap), a successful row-rendering pass
re-emits the header block immediately *before* — not after — every
data row whose 1-based index is a multiple of `N`, and at no other
position; when header repetition is disabled, the header block is never
re-emitted during row rendering. -/
theorem c3_amended (cfg : Config) (cols : List Column) (ls : List (List Char)) :
    ∀ (n : Nat) (evs : List OutEvent) (cap cap2 : Option Nat) (rest2 : List ReadResult),
    (∀ s ∈ ls, s ≠ []) →
    print_aligned_rows_w cfg cols n (ls.map ReadResult.line) cap =
      Except.ok (evs, cap2, rest2) →
    ((∀ N, cfg.header_repeat = some N → 0 < N → n + ls.length < 65536 →
        evs.map evIsHeader = specTagsBefore N n ls.length)
     ∧ (cfg.header_repeat = none →
        evs.map evIsHeader = List.replicate ls.length false)) := by
  induction ls with
  | nil =>
    intro n evs cap cap2 rest2 hne hrun
    simp only [List.map_nil, print_aligned_rows_w] at hrun
    obtain ⟨rfl, -, -⟩ : ([] : List OutEvent) = evs ∧ cap = cap2 ∧ ([] : List ReadResult) = rest2 := by
      simpa using hrun
    constructor
    · intro N _ _ _
      simp [specTagsBefore]
    · intro _
      simp
  | cons s ls ih =>
    intro n evs cap cap2 rest2 hne hrun
    have hs : s ≠ [] := hne s (by simp)
    simp only [List.map_cons] at hrun
    rw [print_aligned_rows_w, if_neg hs] at hrun
    split at hrun
    · simp at hrun
    · rename_i hevs cap1 hh
      split at hrun
      · simp at hrun
      · rename_i txt capb hw
        split at hrun
        · simp at hrun
        · rename_i cap3 hnl
          split at hrun
          · simp at hrun
          · rename_i evs2 cap4 rem hr
            obtain ⟨rfl, -, -⟩ :
                hevs ++ OutEvent.row (txt ++ ['\n']) :: evs2 = evs ∧
                  cap4 = cap2 ∧ rem = rest2 := by
              simpa using hrun
            have ihres := ih ((n + 1) % 65536) evs2 cap3 cap4 rem
              (fun t ht => hne t (List.mem_cons_of_mem s ht)) hr
            constructor
            · intro N hN hNpos hlt
              have hn1 : (n + 1) % 65536 = n + 1 := by
                apply Nat.mod_eq_of_lt
                simp only [List.length_cons] at hlt
                omega
              have htail := ihres.1 N hN hNpos (by
                rw [hn1]
                simp only [List.length_cons] at hlt
                omega)
              simp only [row_header_step, hN] at hh
              rw [if_neg (by omega : ¬ N = 0), hn1] at hh
              rw [hn1] at htail
              by_cases hdiv : (n + 1) % N = 0
              · rw [if_pos hdiv] at hh
                split at hh
                · simp at hh
                · rename_i htxt hcap hph
                  obtain ⟨rfl, -⟩ :
                      [OutEvent.headerBlock htxt] = hevs ∧ hcap = cap1 := by
                    simpa using hh
                  simp [specTagsBefore, hdiv, evIsHeader, htail]
              · rw [if_neg hdiv] at hh
                obtain ⟨rfl, -⟩ : ([] : List OutEvent) = hevs ∧ cap = cap1 := by
                  simpa using hh
                simp [specTagsBefore, hdiv, evIsHeader, htail]
            · intro hN
              simp only [row_header_step, hN] at hh
              obtain ⟨rfl, -⟩ : ([] : List OutEvent) = hevs ∧ cap = cap1 := by
                simpa using hh
              simp [evIsHeader, ihres.2 hN, List.replicate_succ]

/-- Witness for claim C3 amended: the concrete two-row run of the C3
counterexample, with `header_repeat = 2`, places its single header
block exactly as `specTagsBefore` describes. -/
theorem c3_amended_witness :
    [OutEvent.row ['1', ' ', '\n'], OutEvent.headerBlock ['a', ' '],
      OutEvent.row ['2', ' ', '\n']].map evIsHeader = specTagsBefore 2 0 2 :=
  (c3_amended ⟨some 2, none, false⟩ colsA [['1', '\n'], ['2', '\n']] 0
      [OutEvent.row ['1', ' ', '\n'], OutEvent.headerBlock ['a', ' '],
        OutEvent.row ['2', ' ', '\n']] none none []
      (by decide) (by rfl)).1 2 rfl (by decide) (by decide)

end Cols
